import Mathlib

/-!
Verification development for the AST-Safe Rename Tool (`src/main.py`).

The tool parses each Python file into a syntax tree, locates every node of
six kinds (Name, FunctionDef, AsyncFunctionDef, ClassDef, Attribute, arg)
whose identifier-bearing field equals an old spelling, rewrites those fields
to a new spelling with an `ast.NodeTransformer`, serializes the tree back to
source, and applies the results over a file set with backups, an atomic
writer, a manifest, and an undo pass.

The embedding below mirrors `main.py` construct by construct:
* `Node`/`NodeList` shallowly embed the fragment of the Python `ast` node
  vocabulary the tool manipulates, with children in the field order
  `ast.iter_child_nodes` yields them (which fixes visit order).
* `findN`/`findL` embed `find_identifiers`'s `IdentifierFinder`
  (an `ast.NodeVisitor`: every handler records a match and then calls
  `generic_visit`, so the walk is a full pre-order traversal).
* `renameN`/`renameL` embed `create_renamer`'s `Renamer`
  (an `ast.NodeTransformer`).  Crucially, the source's `visit_Name` and
  `visit_arg` handlers do NOT call `generic_visit`, so the transformer never
  descends into an `arg` node's annotation subtree; the embedding reproduces
  exactly that.
* `ast_to_source` models `ast.unparse` on the embedded fragment
  (4-space indentation, one statement per line, no trailing newline).
* The file pipeline, orchestrator loop, stats, diff, backup, restore and
  atomic-write models follow further down, each next to its claims.

Source positions (`lineno`, `col_offset`) are diagnostic-only in the tool
(they are never read back); occurrences are therefore embedded as the list
of kind tags in visit order, exactly the third components the source stores.
-/

mutual
/-- Embedded fragment of the Python `ast` node vocabulary used by the tool.
`module` is `ast.Module`; `functionDef nm args body` is `ast.FunctionDef`
(with `args` an `arguments` node); `classDef nm bases body` is
`ast.ClassDef`; `assign`, `exprStmt`, `passStmt` are `ast.Assign`,
`ast.Expr`, `ast.Pass`; `name` is `ast.Name`; `attributeNode v a` is
`ast.Attribute(value=v, attr=a)`; `call` is `ast.Call`;
`constantStr`/`constantNone` are `ast.Constant`; `argumentsNode` is
`ast.arguments`; `argNode a ann` is `ast.arg(arg=a, annotation=ann)` with
the optional annotation embedded as a list of zero or one nodes, matching
how `iter_child_nodes` skips a `None` field. -/
inductive Node where
  | module (body : NodeList)
  | functionDef (nm : String) (args : Node) (body : NodeList)
  | asyncFunctionDef (nm : String) (args : Node) (body : NodeList)
  | classDef (nm : String) (bases : NodeList) (body : NodeList)
  | assign (targets : NodeList) (value : Node)
  | exprStmt (value : Node)
  | passStmt
  | name (id : String)
  | attributeNode (value : Node) (attr : String)
  | call (func : Node) (cargs : NodeList)
  | constantStr (s : String)
  | constantNone
  | argumentsNode (args : NodeList)
  | argNode (a : String) (ann : NodeList)
/-- Child lists of `Node`, embedded mutually so that all traversals are
plain structural recursion. -/
inductive NodeList where
  | nil
  | cons (hd : Node) (tl : NodeList)
end

mutual
/-- Embeds `find_identifiers` (src/main.py lines 39-74): the `IdentifierFinder`
visitor.  Every handler first records a match of its node's identifier
field against `old_name` and then calls `generic_visit`, so the traversal
is a full pre-order walk of the tree; nodes without a handler (`Module`,
`arguments`, `Assign`, `Expr`, `Call`, `Constant`, `Pass`) fall through to
`generic_visit` and contribute only their children.  The returned list
holds the kind tags in visit order (the source also records `lineno` and
`col_offset`, which are diagnostic-only and never consumed). -/
def findN (old : String) : Node → List String
  | .module b => findL old b
  | .functionDef nm args body =>
      (if nm = old then ["FunctionDef"] else []) ++ findN old args ++ findL old body
  | .asyncFunctionDef nm args body =>
      (if nm = old then ["AsyncFunctionDef"] else []) ++ findN old args ++ findL old body
  | .classDef nm bases body =>
      (if nm = old then ["ClassDef"] else []) ++ findL old bases ++ findL old body
  | .assign targets value => findL old targets ++ findN old value
  | .exprStmt value => findN old value
  | .passStmt => []
  | .name id => if id = old then ["Name"] else []
  | .attributeNode value attr =>
      (if attr = old then ["Attribute"] else []) ++ findN old value
  | .call func cargs => findN old func ++ findL old cargs
  | .constantStr _ => []
  | .constantNone => []
  | .argumentsNode args => findL old args
  | .argNode a ann => (if a = old then ["arg"] else []) ++ findL old ann
/-- List part of the `IdentifierFinder` traversal. -/
def findL (old : String) : NodeList → List String
  | .nil => []
  | .cons h t => findN old h ++ findL old t
end

/-- Wrapper matching `find_identifiers(tree, old_name)` with the source's argument order. -/
def find_identifiers (tree : Node) (old_name : String) : List String :=
  findN old_name tree

mutual
/-- Embeds `create_renamer` (src/main.py lines 77-114): the `Renamer`
transformer.  Handlers for `FunctionDef`, `AsyncFunctionDef`, `ClassDef`
and `Attribute` rewrite their identifier field and then call
`self.generic_visit(node)`; nodes without a handler are recursed into by
`NodeTransformer.generic_visit`.  The source's `visit_Name` and
`visit_arg` return the node WITHOUT calling `generic_visit`, so an `arg`
node's annotation subtree is never visited by the transformer — the
embedding reproduces that faithfully. -/
def renameN (old new : String) : Node → Node
  | .module b => .module (renameL old new b)
  | .functionDef nm args body =>
      .functionDef (if nm = old then new else nm)
        (renameN old new args) (renameL old new body)
  | .asyncFunctionDef nm args body =>
      .asyncFunctionDef (if nm = old then new else nm)
        (renameN old new args) (renameL old new body)
  | .classDef nm bases body =>
      .classDef (if nm = old then new else nm)
        (renameL old new bases) (renameL old new body)
  | .assign targets value => .assign (renameL old new targets) (renameN old new value)
  | .exprStmt value => .exprStmt (renameN old new value)
  | .passStmt => .passStmt
  | .name id => .name (if id = old then new else id)
  | .attributeNode value attr =>
      .attributeNode (renameN old new value) (if attr = old then new else attr)
  | .call func cargs => .call (renameN old new func) (renameL old new cargs)
  | .constantStr s => .constantStr s
  | .constantNone => .constantNone
  | .argumentsNode args => .argumentsNode (renameL old new args)
  | .argNode a ann => .argNode (if a = old then new else a) ann
/-- List part of the `Renamer` traversal. -/
def renameL (old new : String) : NodeList → NodeList
  | .nil => .nil
  | .cons h t => .cons (renameN old new h) (renameL old new t)
end

/-- Embeds `apply_rename_to_tree(tree, create_renamer(old, new))`
(src/main.py lines 117-118). -/
def apply_rename_to_tree (tree : Node) (old new : String) : Node :=
  renameN old new tree

/-- Four-space indentation prefix used by `ast.unparse`. -/
def indentStr : Nat → String
  | 0 => ""
  | n + 1 => "    " ++ indentStr n

mutual
/-- Model of `ast.unparse` (used by `ast_to_source`, src/main.py lines
35-36) on expressions of the embedded fragment: annotated parameters
rendered `x: ann`, string constants in single quotes. -/
def unparseExpr : Node → String
  | .name id => id
  | .attributeNode value attr => unparseExpr value ++ "." ++ attr
  | .call func cargs => unparseExpr func ++ "(" ++ unparseCommas cargs ++ ")"
  | .constantStr s => "'" ++ s ++ "'"
  | .constantNone => "None"
  | .argumentsNode args => unparseCommas args
  | .argNode a ann =>
      a ++ (match ann with
            | .nil => ""
            | .cons t _ => ": " ++ unparseExpr t)
  | _ => ""
/-- Comma-separated rendering of an expression list. -/
def unparseCommas : NodeList → String
  | .nil => ""
  | .cons h .nil => unparseExpr h
  | .cons h t => unparseExpr h ++ ", " ++ unparseCommas t
end

mutual
/-- Statement rendering of the `ast.unparse` model: statements one per
line, bodies indented by four spaces per level, no trailing newline. -/
def unparseStmt (ind : Nat) : Node → String
  | .functionDef nm args body =>
      indentStr ind ++ "def " ++ nm ++ "(" ++ unparseExpr args ++ "):\n" ++
        unparseBody (ind + 1) body
  | .asyncFunctionDef nm args body =>
      indentStr ind ++ "async def " ++ nm ++ "(" ++ unparseExpr args ++ "):\n" ++
        unparseBody (ind + 1) body
  | .classDef nm bases body =>
      indentStr ind ++ "class " ++ nm ++
        (match bases with
         | .nil => ""
         | _ => "(" ++ unparseCommas bases ++ ")") ++ ":\n" ++
        unparseBody (ind + 1) body
  | .assign targets value =>
      indentStr ind ++ unparseTargets targets ++ unparseExpr value
  | .exprStmt value => indentStr ind ++ unparseExpr value
  | .passStmt => indentStr ind ++ "pass"
  | e => indentStr ind ++ unparseExpr e
/-- Statement-list rendering: statements joined by newlines. -/
def unparseBody (ind : Nat) : NodeList → String
  | .nil => ""
  | .cons h .nil => unparseStmt ind h
  | .cons h t => unparseStmt ind h ++ "\n" ++ unparseBody ind t
/-- Assignment targets rendering: each target followed by an equals sign. -/
def unparseTargets : NodeList → String
  | .nil => ""
  | .cons h t => unparseExpr h ++ " = " ++ unparseTargets t
end

/-- Embeds `ast_to_source(tree)`: top-level statements joined by newlines. -/
def ast_to_source : Node → String
  | .module body => unparseBody 0 body
  | t => unparseStmt 0 t

/-- Outcome of the read-and-parse prefix of the per-file pipeline.
`ioError` stands for `read_text` raising, `parseError` for `ast.parse`
raising; `ok src tree` is a successful read of source text `src` whose
parse produced `tree`. -/
inductive FileInput where
  | ioError
  | parseError
  | ok (source : String) (tree : Node)

/-- Embeds `safe_process_file` (src/main.py lines 179-195): the whole body runs in
a `try`; any exception from reading or parsing yields `("", "", False)`.
On success: if no occurrence is found the original text is returned twice
with `touched = False`; otherwise the tree is renamed, re-serialized, and
returned with `touched = True`.  (The `backup_dir` parameter of the source
function is never used in its body and is omitted.) -/
def safe_process_file (input : FileInput) (old new : String) : String × String × Bool :=
  match input with
  | .ioError => ("", "", false)
  | .parseError => ("", "", false)
  | .ok src tree =>
      if find_identifiers tree old = [] then
        (src, src, false)
      else
        (src, ast_to_source (apply_rename_to_tree tree old new), true)

-- Concrete fixture used by several claims: the file
-- `def f(x: old):\n    pass`, whose only occurrence of `old` is the `Name`
-- node inside the parameter's annotation.  `ast.parse` of that text yields
-- exactly this tree, and `ast.unparse` of this tree yields exactly that
-- text back.

/-- The tree of `def f(x: old):\n    pass`. -/
def annOnlyTree : Node :=
  .module (.cons
    (.functionDef "f"
      (.argumentsNode (.cons (.argNode "x" (.cons (.name "old") .nil)) .nil))
      (.cons .passStmt .nil))
    .nil)

/-- The source text of `annOnlyTree`, in `ast.unparse` normal form. -/
def annOnlySource : String := "def f(x: old):\n    pass"

mutual
/-- Observer for claim C2: erases every identifier-bearing field of the six
recognized kinds (`Name.id`, `FunctionDef.name`, `AsyncFunctionDef.name`,
`ClassDef.name`, `Attribute.attr`, `arg.arg`) to the empty string while
keeping all other structure and content — in particular every string
constant — intact.  Two trees agree under `idEraseN` exactly when they
differ at most in those six fields. -/
def idEraseN : Node → Node
  | .module b => .module (idEraseL b)
  | .functionDef _ args body => .functionDef "" (idEraseN args) (idEraseL body)
  | .asyncFunctionDef _ args body => .asyncFunctionDef "" (idEraseN args) (idEraseL body)
  | .classDef _ bases body => .classDef "" (idEraseL bases) (idEraseL body)
  | .assign targets value => .assign (idEraseL targets) (idEraseN value)
  | .exprStmt value => .exprStmt (idEraseN value)
  | .passStmt => .passStmt
  | .name _ => .name ""
  | .attributeNode value _ => .attributeNode (idEraseN value) ""
  | .call func cargs => .call (idEraseN func) (idEraseL cargs)
  | .constantStr s => .constantStr s
  | .constantNone => .constantNone
  | .argumentsNode args => .argumentsNode (idEraseL args)
  | .argNode _ ann => .argNode "" (idEraseL ann)
/-- List part of `idEraseN`. -/
def idEraseL : NodeList → NodeList
  | .nil => .nil
  | .cons h t => .cons (idEraseN h) (idEraseL t)
end

mutual
/-- Observer for claim C2: the identifier-bearing fields of the six
recognized kinds, collected in pre-order (every field, whatever its
value). -/
def idFieldsN : Node → List String
  | .module b => idFieldsL b
  | .functionDef nm args body => nm :: (idFieldsN args ++ idFieldsL body)
  | .asyncFunctionDef nm args body => nm :: (idFieldsN args ++ idFieldsL body)
  | .classDef nm bases body => nm :: (idFieldsL bases ++ idFieldsL body)
  | .assign targets value => idFieldsL targets ++ idFieldsN value
  | .exprStmt value => idFieldsN value
  | .passStmt => []
  | .name id => [id]
  | .attributeNode value attr => attr :: idFieldsN value
  | .call func cargs => idFieldsN func ++ idFieldsL cargs
  | .constantStr _ => []
  | .constantNone => []
  | .argumentsNode args => idFieldsL args
  | .argNode a ann => a :: idFieldsL ann
/-- List part of `idFieldsN`. -/
def idFieldsL : NodeList → List String
  | .nil => []
  | .cons h t => idFieldsN h ++ idFieldsL t
end

mutual
/-- Observer for claim C2: the contents of all string/text literals
(`ast.Constant` with a string value) in the tree, in pre-order. -/
def strLitsN : Node → List String
  | .module b => strLitsL b
  | .functionDef _ args body => strLitsN args ++ strLitsL body
  | .asyncFunctionDef _ args body => strLitsN args ++ strLitsL body
  | .classDef _ bases body => strLitsL bases ++ strLitsL body
  | .assign targets value => strLitsL targets ++ strLitsN value
  | .exprStmt value => strLitsN value
  | .passStmt => []
  | .name _ => []
  | .attributeNode value _ => strLitsN value
  | .call func cargs => strLitsN func ++ strLitsL cargs
  | .constantStr s => [s]
  | .constantNone => []
  | .argumentsNode args => strLitsL args
  | .argNode _ ann => strLitsL ann
/-- List part of `strLitsN`. -/
def strLitsL : NodeList → List String
  | .nil => []
  | .cons h t => strLitsN h ++ strLitsL t
end

/-- Relation used in claim C2: how a single identifier field may evolve
under one rename pass.  A field not equal to `old` must be unchanged; a
field equal to `old` is either rewritten to `new` or (because the source's
transformer never reaches `Name` nodes inside an `arg` annotation) left as
`old`. -/
def renRel (old new a b : String) : Prop :=
  if a = old then b = old ∨ b = new else b = a

-- ORCHESTRATOR MODEL (`main`, src/main.py lines 241-304).

/-- State accumulated by the scan loop of `main` (lines 263-270): the
`changes` dict in insertion order as `(path, original, modified)` entries,
and the list of paths handed to `backup_file`, in call order. -/
structure ScanResult where
  changes : List (String × String × String)
  backups : List String
deriving DecidableEq

/-- The scan loop of `main` (lines 263-270): for each discovered path, run
`safe_process_file`; if the returned original text is truthy (non-empty)
record it in `changes`, and additionally call `backup_file` when
`has_changes` and apply mode are both set. -/
def runScan (old new : String) (applyMode : Bool) :
    List (String × FileInput) → ScanResult
  | [] => ⟨[], []⟩
  | (p, fi) :: rest =>
      let r := safe_process_file fi old new
      let acc := runScan old new applyMode rest
      if r.1 = "" then acc
      else
        ⟨(p, r.1, r.2.1) :: acc.changes,
         (if r.2.2 ∧ applyMode then [p] else []) ++ acc.backups⟩

/-- The write loop of the apply phase (lines 291-294): every recorded file
whose original and modified text differ is written atomically. -/
def writeTargets (changes : List (String × String × String)) : List String :=
  (changes.filter fun c => ¬ (c.2.1 = c.2.2)).map fun c => c.1

/-- The apply phase guarded by the confirmation prompt (lines 286-294):
when the operator declines, nothing is written and `main` aborts. -/
def applyWrites (confirmed : Bool) (changes : List (String × String × String)) :
    List String :=
  if confirmed then writeTargets changes else []

/-- Result dictionary shape of `summarize_stats` (src/main.py lines 198-204). -/
structure Stats where
  files_scanned : Nat
  files_modified : Nat
  files_unchanged : Nat
deriving DecidableEq

/-- Embeds `summarize_stats(changes)` (src/main.py lines 198-204). -/
def summarize_stats (changes : List (String × String × String)) : Stats :=
  let files_modified := (changes.filter fun c => ¬ (c.2.1 = c.2.2)).length
  ⟨changes.length, files_modified, changes.length - files_modified⟩

-- FILE-SYSTEM MODEL for the backup, restore, and atomic-write subsystems.

/-- A file system as an association list from path to file content. -/
abbrev FS := List (String × String)

/-- Content of the file at `p`, `none` when no such file exists. -/
def fsLookup : FS → String → Option String
  | [], _ => none
  | (k, v) :: rest, p => if k = p then some v else fsLookup rest p

/-- Remove the file at `p`. -/
def fsErase : FS → String → FS
  | [], _ => []
  | (k, v) :: rest, p => if k = p then fsErase rest p else (k, v) :: fsErase rest p

/-- Create or overwrite the file at `p` with content `c`. -/
def fsSet (fs : FS) (p c : String) : FS := (p, c) :: fsErase fs p

/-- Embeds `os.path.exists`. -/
def fsExists (fs : FS) (p : String) : Bool := (fsLookup fs p).isSome

/-- Embeds `os.path.dirname` on the character list: everything strictly before
the last slash, empty when there is no slash. -/
def dirnameChars (cs : List Char) : List Char :=
  ((cs.reverse.dropWhile fun c => ¬ (c = '/')).drop 1).reverse

/-- Embeds `os.path.dirname`. -/
def dirname (p : String) : String := ⟨dirnameChars p.data⟩

/-- Embeds `os.path.basename` on the character list: everything strictly after
the last slash. -/
def basenameChars (cs : List Char) : List Char :=
  (cs.reverse.takeWhile fun c => ¬ (c = '/')).reverse

/-- Embeds `os.path.basename`. -/
def basename (p : String) : String := ⟨basenameChars p.data⟩

/-- Embeds `os.path.dirname(path) or '.'` (src/main.py line 23): the directory the
atomic writer asks `tempfile` to create the temporary file in. -/
def write_dir (path : String) : String :=
  if dirname path = "" then "." else dirname path

/-- The three file-system states `write_file_atomic` (src/main.py lines
22-28) passes through: after `NamedTemporaryFile` creates the (empty)
temporary file, after `tmp.write(content)`, and after
`shutil.move(tmp_path, path)`.  A failure before the move leaves the
system in one of the first two states. -/
structure AtomicTrace where
  afterCreate : FS
  afterWrite : FS
  afterMove : FS

/-- Embeds `write_file_atomic(path, content)` as a state trace; `tmp` is the fresh
name chosen by `tempfile.NamedTemporaryFile(dir=write_dir path)`. -/
def write_file_atomic (fs : FS) (tmp path content : String) : AtomicTrace :=
  let s1 := fsSet fs tmp ""
  let s2 := fsSet s1 tmp content
  let s3 := fsSet (fsErase s2 tmp) path content
  ⟨s1, s2, s3⟩

-- DECIMAL RENDERING of the probe counter (the `f"....{counter}"` in
-- `backup_file`).

/-- The decimal digit character for `d < 10`. -/
def digitChar : Nat → Char
  | 0 => '0'
  | 1 => '1'
  | 2 => '2'
  | 3 => '3'
  | 4 => '4'
  | 5 => '5'
  | 6 => '6'
  | 7 => '7'
  | 8 => '8'
  | 9 => '9'
  | _ => '*'

/-- Decimal digit string of a natural number, most significant first. -/
def digitsOf (n : Nat) : List Char :=
  if _h : n < 10 then [digitChar n]
  else digitsOf (n / 10) ++ [digitChar (n % 10)]
decreasing_by
  exact Nat.div_lt_self (by omega) (by omega)

/-- Decimal rendering of a natural number, as Python string formatting
produces it. -/
def natStr (n : Nat) : String := ⟨digitsOf n⟩

/-- The probe sequence of `backup_file` (src/main.py lines 148-154), where
`pre` is `os.path.join(backup_dir, os.path.basename(path) + '.bak')`:
candidate 0 is `pre` itself and candidate `k ≥ 1` is `pre` with `.k`
appended. -/
def bakCandidate (pre : String) : Nat → String
  | 0 => pre
  | Nat.succ m => pre ++ "." ++ natStr (Nat.succ m)

/-- The `while os.path.exists(backup_path)` loop of `backup_file`: starting
from candidate `k`, return the first candidate not present in `fs`.  The
fuel argument makes the recursion structural; `backup_file` passes one
more than the number of files, which the C7 theorem shows is always
enough. -/
def probeBak (fs : FS) (pre : String) : Nat → Nat → String
  | 0, k => bakCandidate pre k
  | Nat.succ fuel, k =>
      if fsExists fs (bakCandidate pre k) then probeBak fs pre fuel (k + 1)
      else bakCandidate pre k

/-- Embeds `backup_file(path, backup_dir, manifest)` (src/main.py lines 148-156):
probe for a free backup name, copy the file's bytes there
(`shutil.copy2`), and record `manifest[path] = backup_path`.  When the
source file does not exist `shutil.copy2` raises; the model then leaves
the file system unchanged (the C7 theorem assumes the file exists, as it
always does at the call site). -/
def backup_file (fs : FS) (path backup_dir : String)
    (manifest : List (String × String)) : FS × List (String × String) :=
  let pre := backup_dir ++ "/" ++ basename path ++ ".bak"
  let backup_path := probeBak fs pre (fs.length + 1) 0
  (match fsLookup fs path with
   | some c => fsSet fs backup_path c
   | none => fs,
   fsSet manifest path backup_path)

/-- Embeds `restore_backups` (src/main.py lines 164-177), from the point where the
manifest has been read: walk the manifest entries in order; when the
backup exists copy it over the original and report success, otherwise
report the missing backup and continue.  Returns the final file system
and the printed report lines in order. -/
def restore_backups : FS → List (String × String) → FS × List String
  | fs, [] => (fs, [])
  | fs, (original, backup) :: rest =>
      match fsLookup fs backup with
      | some c =>
          let r := restore_backups (fsSet fs original c) rest
          (r.1, ("Restored: " ++ original) :: r.2)
      | none =>
          let r := restore_backups fs rest
          (r.1, ("Backup not found: " ++ backup) :: r.2)

-- DIFF REPORTER (`generate_diff`, src/main.py lines 121-126).  The source
-- delegates to the standard library: `str.splitlines(keepends=True)`,
-- `difflib.unified_diff(..., lineterm='')`, and `''.join(...)`.  Those
-- library routines are modeled here: `splitlines` keeps the terminating
-- newline on each line (the model splits on `'\n'`, which also covers
-- `'\r\n'` sequences since the `'\r'` stays inside the line), and
-- `unified_diff` yields nothing when the two line sequences are equal and
-- otherwise two `---`/`+++` header lines followed by one hunk, exactly
-- difflib's observable shape.

/-- Embeds `str.splitlines(keepends=True)`: accumulate the current line in
reverse; a newline closes the line (keeping the newline), the end of the
text closes a final unterminated line if non-empty. -/
def splitlinesAux : List Char → List Char → List (List Char)
  | [], acc => if acc = [] then [] else [acc.reverse]
  | c :: rest, acc =>
      if c = '\n' then (acc.reverse ++ ['\n']) :: splitlinesAux rest []
      else splitlinesAux rest (c :: acc)

/-- Embeds `original.splitlines(keepends=True)` as a list of character lists. -/
def splitlines (s : String) : List (List Char) := splitlinesAux s.data []

/-- Length of the longest common prefix of two line sequences (the
matcher underlying the diff). -/
def cpl : List (List Char) → List (List Char) → Nat
  | a :: as, b :: bs => if a = b then cpl as bs + 1 else 0
  | _, _ => 0

/-- The `@@ -i,n +j,m @@` hunk header line. -/
def hunkHeader (startA lenA startB lenB : Nat) : List Char :=
  ("@@ -" ++ natStr startA ++ "," ++ natStr lenA ++
   " +" ++ natStr startB ++ "," ++ natStr lenB ++ " @@").data

/-- Model of `difflib.unified_diff(a, b, fromfile, tofile, lineterm='')`:
split off the longest common prefix and suffix; when nothing remains in
the middle the sequences are equal and nothing is emitted, otherwise emit
the two header lines and a single hunk with up to three lines of context
on each side, deletions tagged `-` and insertions tagged `+`. -/
def unified_diff (a b : List (List Char)) (fromfile tofile : String) :
    List (List Char) :=
  let p := cpl a b
  let aRest := a.drop p
  let bRest := b.drop p
  let s := cpl aRest.reverse bRest.reverse
  let amid := aRest.take (aRest.length - s)
  let bmid := bRest.take (bRest.length - s)
  if amid = [] ∧ bmid = [] then []
  else
    let ctxPre := ((a.take p).drop (p - 3)).map fun l => ' ' :: l
    let ctxPost := ((aRest.drop amid.length).take 3).map fun l => ' ' :: l
    ("--- ".data ++ fromfile.data) ::
    ("+++ ".data ++ tofile.data) ::
    hunkHeader (p - min p 3 + 1) (ctxPre.length + amid.length + ctxPost.length)
      (p - min p 3 + 1) (ctxPre.length + bmid.length + ctxPost.length) ::
    (ctxPre ++ amid.map (fun l => '-' :: l) ++ bmid.map (fun l => '+' :: l) ++ ctxPost)

/-- Embeds `generate_diff(original, modified, path)` (src/main.py lines 121-126):
split both texts into kept-ends lines, diff them with file labels `a/path`
and `b/path`, and join the emitted lines with the empty separator. -/
def generate_diff (original modified path : String) : String :=
  ⟨(unified_diff (splitlines original) (splitlines modified)
      ("a/" ++ path) ("b/" ++ path)).flatten⟩

/-- Numeric value of a decimal digit character (proof-side observer). -/
def dval : Char → Nat
  | '1' => 1
  | '2' => 2
  | '3' => 3
  | '4' => 4
  | '5' => 5
  | '6' => 6
  | '7' => 7
  | '8' => 8
  | '9' => 9
  | _ => 0

/-- Numeric value of a digit string, most significant first. -/
def toVal (l : List Char) : Nat := l.foldl (fun a c => 10 * a + dval c) 0

/-- The paths present in the file system. -/
def fsKeys (fs : FS) : List String := fs.map Prod.fst

-- THEOREMS

-- Helper lemmas for claim C2, one per mutual traversal.

mutual
/-- Erasing identifier fields commutes the rename away: the rename pass
alters nothing outside the six identifier-bearing fields. -/
theorem idErase_renameN (old new : String) :
    (t : Node) → idEraseN (renameN old new t) = idEraseN t
  | .module b => by simp [renameN, idEraseN, idErase_renameL old new b]
  | .functionDef nm args body => by
      simp [renameN, idEraseN, idErase_renameN old new args, idErase_renameL old new body]
  | .asyncFunctionDef nm args body => by
      simp [renameN, idEraseN, idErase_renameN old new args, idErase_renameL old new body]
  | .classDef nm bases body => by
      simp [renameN, idEraseN, idErase_renameL old new bases, idErase_renameL old new body]
  | .assign targets value => by
      simp [renameN, idEraseN, idErase_renameL old new targets, idErase_renameN old new value]
  | .exprStmt value => by simp [renameN, idEraseN, idErase_renameN old new value]
  | .passStmt => rfl
  | .name id => by simp [renameN, idEraseN]
  | .attributeNode value attr => by
      simp [renameN, idEraseN, idErase_renameN old new value]
  | .call func cargs => by
      simp [renameN, idEraseN, idErase_renameN old new func, idErase_renameL old new cargs]
  | .constantStr s => rfl
  | .constantNone => rfl
  | .argumentsNode args => by simp [renameN, idEraseN, idErase_renameL old new args]
  | .argNode a ann => by simp [renameN, idEraseN]
/-- List part of `idErase_renameN`. -/
theorem idErase_renameL (old new : String) :
    (l : NodeList) → idEraseL (renameL old new l) = idEraseL l
  | .nil => rfl
  | .cons h t => by
      simp [renameL, idEraseL, idErase_renameN old new h, idErase_renameL old new t]
end

mutual
/-- The rename pass preserves every string literal. -/
theorem strLits_renameN (old new : String) :
    (t : Node) → strLitsN (renameN old new t) = strLitsN t
  | .module b => by simp [renameN, strLitsN, strLits_renameL old new b]
  | .functionDef nm args body => by
      simp [renameN, strLitsN, strLits_renameN old new args, strLits_renameL old new body]
  | .asyncFunctionDef nm args body => by
      simp [renameN, strLitsN, strLits_renameN old new args, strLits_renameL old new body]
  | .classDef nm bases body => by
      simp [renameN, strLitsN, strLits_renameL old new bases, strLits_renameL old new body]
  | .assign targets value => by
      simp [renameN, strLitsN, strLits_renameL old new targets, strLits_renameN old new value]
  | .exprStmt value => by simp [renameN, strLitsN, strLits_renameN old new value]
  | .passStmt => rfl
  | .name id => by simp [renameN, strLitsN]
  | .attributeNode value attr => by
      simp [renameN, strLitsN, strLits_renameN old new value]
  | .call func cargs => by
      simp [renameN, strLitsN, strLits_renameN old new func, strLits_renameL old new cargs]
  | .constantStr s => rfl
  | .constantNone => rfl
  | .argumentsNode args => by simp [renameN, strLitsN, strLits_renameL old new args]
  | .argNode a ann => by simp [renameN, strLitsN]
/-- List part of `strLits_renameN`. -/
theorem strLits_renameL (old new : String) :
    (l : NodeList) → strLitsL (renameL old new l) = strLitsL l
  | .nil => rfl
  | .cons h t => by
      simp [renameL, strLitsL, strLits_renameN old new h, strLits_renameL old new t]
end

/-- The relation `renRel` relates the substituted field to the original one. -/
theorem renRel_subst (old new a : String) :
    renRel old new a (if a = old then new else a) := by
  by_cases h : a = old <;> simp [renRel, h]

/-- The relation `renRel` is reflexive. -/
theorem renRel_refl (old new a : String) : renRel old new a a := by
  by_cases h : a = old <;> simp [renRel, h]

mutual
/-- Field-by-field evolution of the identifier fields under one rename
pass: a field different from `old` is unchanged, a field equal to `old`
either becomes `new` or stays `old`. -/
theorem idFields_renameN (old new : String) :
    (t : Node) → List.Forall₂ (renRel old new) (idFieldsN t) (idFieldsN (renameN old new t))
  | .module b => by simpa [renameN, idFieldsN] using idFields_renameL old new b
  | .functionDef nm args body => by
      simpa [renameN, idFieldsN] using
        List.Forall₂.cons (renRel_subst old new nm)
          (List.rel_append (idFields_renameN old new args) (idFields_renameL old new body))
  | .asyncFunctionDef nm args body => by
      simpa [renameN, idFieldsN] using
        List.Forall₂.cons (renRel_subst old new nm)
          (List.rel_append (idFields_renameN old new args) (idFields_renameL old new body))
  | .classDef nm bases body => by
      simpa [renameN, idFieldsN] using
        List.Forall₂.cons (renRel_subst old new nm)
          (List.rel_append (idFields_renameL old new bases) (idFields_renameL old new body))
  | .assign targets value => by
      simpa [renameN, idFieldsN] using
        List.rel_append (idFields_renameL old new targets) (idFields_renameN old new value)
  | .exprStmt value => by
      simpa [renameN, idFieldsN] using idFields_renameN old new value
  | .passStmt => List.Forall₂.nil
  | .name id => by
      simpa [renameN, idFieldsN] using
        List.Forall₂.cons (renRel_subst old new id) List.Forall₂.nil
  | .attributeNode value attr => by
      simpa [renameN, idFieldsN] using
        List.Forall₂.cons (renRel_subst old new attr) (idFields_renameN old new value)
  | .call func cargs => by
      simpa [renameN, idFieldsN] using
        List.rel_append (idFields_renameN old new func) (idFields_renameL old new cargs)
  | .constantStr s => List.Forall₂.nil
  | .constantNone => List.Forall₂.nil
  | .argumentsNode args => by
      simpa [renameN, idFieldsN] using idFields_renameL old new args
  | .argNode a ann => by
      simpa [renameN, idFieldsN] using
        List.Forall₂.cons (renRel_subst old new a)
          (List.forall₂_same.2 fun x _ => renRel_refl old new x)
/-- List part of `idFields_renameN`. -/
theorem idFields_renameL (old new : String) :
    (l : NodeList) → List.Forall₂ (renRel old new) (idFieldsL l) (idFieldsL (renameL old new l))
  | .nil => List.Forall₂.nil
  | .cons h t => by
      simpa [renameL, idFieldsL] using
        List.rel_append (idFields_renameN old new h) (idFields_renameL old new t)
end

/-- C2: For every syntax tree and every (old, new) spelling pair, the
Rewriter changes only the identifier-bearing fields of nodes of the six
recognized kinds whose field equals `old` (a field different from `old`
is never changed; erasing the six fields makes the renamed tree equal to
the original, so no other structure or content moves), and the contents
of string/text literals are never altered — a spelling occurring only
inside string literals or comments survives the rename pass unchanged
(comments never enter the syntax tree at all). -/
theorem rename_changes_only_identifier_fields (old new : String) (t : Node) :
    idEraseN (renameN old new t) = idEraseN t ∧
    strLitsN (renameN old new t) = strLitsN t ∧
    List.Forall₂ (renRel old new) (idFieldsN t) (idFieldsN (renameN old new t)) :=
  ⟨idErase_renameN old new t, strLits_renameN old new t, idFields_renameN old new t⟩

/-- C1: REFUTED ON THE CODE (code bug).  The file `def f(x: old):\n    pass`
— already in serializer normal form — contains exactly one occurrence of
`old`, the `Name` node inside the parameter's annotation.  The Occurrence
Locator reports it, but the Rewriter's `visit_arg` returns without
`generic_visit`, so the rename pass leaves the tree unchanged; the second
pipeline run on the output finds the same occurrence again and returns
`touched = true`, not the claimed zero occurrences with `touched = false`. -/
theorem second_pass_still_finds_annotation_name :
    apply_rename_to_tree annOnlyTree "old" "new" = annOnlyTree ∧
    find_identifiers annOnlyTree "old" = ["Name"] ∧
    (safe_process_file
        (.ok (ast_to_source (apply_rename_to_tree annOnlyTree "old" "new"))
             (apply_rename_to_tree annOnlyTree "old" "new"))
        "old" "new").2.2 = true ∧
    find_identifiers (apply_rename_to_tree annOnlyTree "old" "new") "old" = ["Name"] :=
  ⟨rfl, by decide, by decide, by decide⟩

/-- C5: REFUTED ON THE CODE (code bug).  On the same fixture the pipeline
returns `touched = true` with `originalText = modifiedText`: the only
occurrence sits in a parameter annotation, the Rewriter never reaches it,
and the file is already in `ast.unparse` normal form, so serialization
reproduces the input byte for byte. -/
theorem touched_true_with_equal_texts :
    safe_process_file (.ok annOnlySource annOnlyTree) "old" "new" =
      (annOnlySource, annOnlySource, true) := by decide

/-- C3: REFUTED ON THE CODE (code bug).  In an apply run over the single
file `def f(x: old):\n    pass` with confirmation granted, the scan loop
calls `backup_file` for the file (it is touched), yet the write loop
overwrites nothing because the serialized text equals the original (the
only occurrence sits in a parameter annotation the Rewriter never
reaches) — a backup is created for a file the apply pass does not
overwrite. -/
theorem backup_created_without_overwrite :
    (runScan "old" "new" true [("a.py", .ok annOnlySource annOnlyTree)]).backups
      = ["a.py"] ∧
    applyWrites true
      (runScan "old" "new" true [("a.py", .ok annOnlySource annOnlyTree)]).changes
      = [] := by decide

/-- A per-file result whose original text comes back empty (exactly the
failure branch of `safe_process_file`, and the empty-source file) is
skipped entirely by the scan loop's `if original:` truthiness check — the
rest of the batch is processed as if the file were absent. -/
theorem runScan_skips (old new : String) (applyMode : Bool) (p : String)
    (fi : FileInput) (h : (safe_process_file fi old new).1 = "") :
    ∀ pre post : List (String × FileInput),
      runScan old new applyMode (pre ++ (p, fi) :: post) =
        runScan old new applyMode (pre ++ post) := by
  intro pre post
  induction pre with
  | nil => simp [runScan, h]
  | cons hd tl ih => simp [runScan, ih]

/-- C4, counterexample to the final clause: a batch consisting of one file
whose read fails yields an empty ChangeRecord set, so the summary reports
zero files scanned, zero modified, zero unchanged — the failed file is
counted in none of them, contradicting "the run's final summary still
counts that file among files scanned / modified / unchanged". -/
theorem failed_file_counted_nowhere :
    summarize_stats (runScan "a" "b" true [("bad.py", FileInput.ioError)]).changes
      = ⟨0, 0, 0⟩ := by decide

/-- C4 as amended: if reading or parsing a file raises, `safe_process_file`
catches the exception at the per-file boundary and returns
`("", "", false)` (the file is treated as unchanged with
`touched = false`), and the batch continues identically over the
remaining files; however the failed file is excluded from the
ChangeRecord set by the orchestrator's truthiness check on the returned
original text and is therefore counted in none of files scanned /
modified / unchanged. -/
theorem failure_isolated_but_uncounted
    (pre post : List (String × FileInput)) (p old new : String)
    (applyMode : Bool) :
    safe_process_file .ioError old new = ("", "", false) ∧
    safe_process_file .parseError old new = ("", "", false) ∧
    runScan old new applyMode (pre ++ (p, .ioError) :: post) =
      runScan old new applyMode (pre ++ post) ∧
    runScan old new applyMode (pre ++ (p, .parseError) :: post) =
      runScan old new applyMode (pre ++ post) ∧
    summarize_stats
        (runScan old new applyMode (pre ++ (p, .ioError) :: post)).changes =
      summarize_stats (runScan old new applyMode (pre ++ post)).changes :=
  ⟨rfl, rfl,
   runScan_skips old new applyMode p .ioError rfl pre post,
   runScan_skips old new applyMode p .parseError rfl pre post,
   by rw [runScan_skips old new applyMode p .ioError rfl pre post]⟩

/-- C10: a scanned file whose contents are the empty string parses to an
empty module, trivially contains no occurrence, and comes back as
`("", "", false)`; the orchestrator's `if original:` truthiness check then
excludes it from the ChangeRecord set, so it is counted in none of files
scanned / modified / unchanged — exactly the treatment a file whose read
or parse failed receives. -/
theorem empty_file_excluded_like_a_failure
    (pre post : List (String × FileInput)) (p old new : String)
    (applyMode : Bool) :
    safe_process_file (.ok "" (.module .nil)) old new = ("", "", false) ∧
    runScan old new applyMode (pre ++ (p, .ok "" (.module .nil)) :: post) =
      runScan old new applyMode (pre ++ post) ∧
    runScan old new applyMode (pre ++ (p, .ok "" (.module .nil)) :: post) =
      runScan old new applyMode (pre ++ (p, .ioError) :: post) ∧
    summarize_stats
        (runScan old new applyMode
          (pre ++ (p, .ok "" (.module .nil)) :: post)).changes =
      summarize_stats (runScan old new applyMode (pre ++ post)).changes := by
  have hspf : safe_process_file (.ok "" (.module .nil)) old new = ("", "", false) := by
    simp [safe_process_file, find_identifiers, findN, findL]
  have h1 := runScan_skips old new applyMode p (.ok "" (.module .nil))
    (by rw [hspf]) pre post
  have h2 := runScan_skips old new applyMode p .ioError rfl pre post
  exact ⟨hspf, h1, h1.trans h2.symm, by rw [h1]⟩

/-- Looking a path up after erasing another: erasing `k` removes exactly
the file at `k`. -/
theorem fsLookup_erase (fs : FS) (k p : String) :
    fsLookup (fsErase fs k) p = if k = p then none else fsLookup fs p := by
  induction fs with
  | nil => simp [fsErase, fsLookup]
  | cons hd tl ih =>
      obtain ⟨a, b⟩ := hd
      by_cases hak : a = k
      · subst hak
        by_cases hap : a = p
        · subst hap
          simp [fsErase, fsLookup, ih]
        · simp [fsErase, fsLookup, hap, ih]
      · by_cases hap : a = p
        · subst hap
          have hkp : ¬ k = a := fun h => hak h.symm
          simp [fsErase, fsLookup, hak, hkp, ih]
        · simp [fsErase, fsLookup, hak, hap, ih]

/-- Looking a path up after setting another: setting `k` changes exactly
the file at `k`. -/
theorem fsLookup_set (fs : FS) (k v p : String) :
    fsLookup (fsSet fs k v) p = if k = p then some v else fsLookup fs p := by
  by_cases h : k = p <;> simp [fsSet, fsLookup, fsLookup_erase, h]

/-- C6: the atomic writer writes the new content to a temporary file whose
name `tempfile` chooses inside `write_dir path` (the target's directory,
per the hypotheses that model `NamedTemporaryFile(dir=..., delete=False)`:
a fresh name in that directory), and only then moves it onto the target in
a single move.  In both intermediate states — after creating the
temporary file and after writing the content into it — the file at `path`
still holds exactly its prior content, so any failure before the move
leaves the target untouched; after the move the target holds the new
content. -/
theorem write_file_atomic_preserves_target
    (fs : FS) (path content tmp prior : String)
    (hpath : fsLookup fs path = some prior)
    (hfresh : fsLookup fs tmp = none)
    (hdir : dirname tmp = write_dir path) :
    dirname tmp = write_dir path ∧
    fsLookup (write_file_atomic fs tmp path content).afterCreate path = some prior ∧
    fsLookup (write_file_atomic fs tmp path content).afterWrite path = some prior ∧
    fsLookup (write_file_atomic fs tmp path content).afterMove path = some content := by
  have hne : tmp ≠ path := by
    intro h
    rw [h, hpath] at hfresh
    exact Option.noConfusion hfresh
  refine ⟨hdir, ?_, ?_, ?_⟩ <;>
    simp [write_file_atomic, fsLookup_set, fsLookup_erase, hne, hpath]

/-- Witness for C6 at a concrete input: one file `d/t.py` holding `x`,
temporary name `d/tmp1`, new content `y`. -/
theorem write_file_atomic_preserves_target_witness :
    fsLookup (write_file_atomic [("d/t.py", "x")] "d/tmp1" "d/t.py" "y").afterCreate
        "d/t.py" = some "x" ∧
    fsLookup (write_file_atomic [("d/t.py", "x")] "d/tmp1" "d/t.py" "y").afterWrite
        "d/t.py" = some "x" ∧
    fsLookup (write_file_atomic [("d/t.py", "x")] "d/tmp1" "d/t.py" "y").afterMove
        "d/t.py" = some "y" :=
  (write_file_atomic_preserves_target [("d/t.py", "x")] "d/t.py" "y" "d/tmp1" "x"
    (by decide) (by decide) (by decide)).2

/-- C8: undo processes every manifest entry independently.  Every entry
produces exactly one report line; an entry whose backup is missing is
reported as not found and skipped, with the remaining entries still
processed against the unchanged file system; an entry whose backup exists
has its bytes copied over the original and is reported as restored, with
the remaining entries processed against the updated file system.  One
missing backup never aborts the undo. -/
theorem restore_backups_entries_independent :
    (∀ (fs : FS) (manifest : List (String × String)),
       (restore_backups fs manifest).2.length = manifest.length) ∧
    (∀ (fs : FS) (original backup : String) (rest : List (String × String)),
       fsLookup fs backup = none →
       restore_backups fs ((original, backup) :: rest) =
         ((restore_backups fs rest).1,
          ("Backup not found: " ++ backup) :: (restore_backups fs rest).2)) ∧
    (∀ (fs : FS) (original backup c : String) (rest : List (String × String)),
       fsLookup fs backup = some c →
       restore_backups fs ((original, backup) :: rest) =
         ((restore_backups (fsSet fs original c) rest).1,
          ("Restored: " ++ original) ::
            (restore_backups (fsSet fs original c) rest).2)) := by
  refine ⟨?_, ?_, ?_⟩
  · intro fs manifest
    induction manifest generalizing fs with
    | nil => rfl
    | cons e rest ih =>
        obtain ⟨o, b⟩ := e
        cases h : fsLookup fs b <;> simp [restore_backups, h, ih]
  · intro fs original backup rest h
    simp [restore_backups, h]
  · intro fs original backup c rest h
    simp [restore_backups, h]

/-- Witness for C8 at a concrete input: a manifest whose first backup is
missing and whose second exists — the first is reported unrestorable, the
second is still restored. -/
theorem restore_backups_entries_independent_witness :
    restore_backups [("bk/b.py.bak", "B")]
        [("a.py", "bk/a.py.bak"), ("b.py", "bk/b.py.bak")] =
      ([("b.py", "B"), ("bk/b.py.bak", "B")],
       ["Backup not found: bk/a.py.bak", "Restored: b.py"]) := by
  have h := restore_backups_entries_independent.2.1
    [("bk/b.py.bak", "B")] "a.py" "bk/a.py.bak" [("b.py", "bk/b.py.bak")] (by decide)
  rw [h]
  decide

-- Claim C7: the backup probe.  The probe sequence consists of pairwise
-- distinct names, so among the first `fs.length + 1` candidates at least
-- one is free; the loop therefore terminates within its fuel and returns
-- the first free candidate.

/-- Inversion: `dval` inverts `digitChar` on single digits. -/
theorem dval_digitChar (d : Nat) (h : d < 10) : dval (digitChar d) = d := by
  interval_cases d <;> rfl

/-- Value of a snoc digit list: one more least-significant digit. -/
theorem toVal_snoc (xs : List Char) (c : Char) :
    toVal (xs ++ [c]) = 10 * toVal xs + dval c := by
  simp [toVal, List.foldl_append]

/-- Decimal roundtrip: `toVal` inverts `digitsOf`. -/
theorem toVal_digitsOf (n : Nat) : toVal (digitsOf n) = n := by
  induction n using Nat.strong_induction_on with
  | _ n ih =>
      rw [digitsOf]
      by_cases h : n < 10
      · simp [h, toVal, dval_digitChar n h]
      · have hd : n / 10 < n := Nat.div_lt_self (by omega) (by omega)
        simp only [h, dif_neg, not_false_iff]
        rw [toVal_snoc, ih (n / 10) hd, dval_digitChar (n % 10) (Nat.mod_lt n (by omega))]
        omega

/-- Decimal rendering is injective. -/
theorem digitsOf_injective : Function.Injective digitsOf := by
  intro a b h
  have ha := toVal_digitsOf a
  rw [h, toVal_digitsOf b] at ha
  exact ha.symm

/-- A decimal rendering is never the empty list. -/
theorem digitsOf_ne_nil (n : Nat) : digitsOf n ≠ [] := by
  rw [digitsOf]
  split <;> simp

/-- The probe candidates are pairwise distinct: candidate 0 is strictly
shorter than every numbered candidate, and two numbered candidates agree
only when their counters do. -/
theorem bakCandidate_injective (pre : String) :
    Function.Injective (bakCandidate pre) := by
  have hdata0 : (bakCandidate pre 0).data = pre.data := rfl
  have hdata : ∀ m : Nat, (bakCandidate pre (m + 1)).data =
      pre.data ++ (".".data ++ digitsOf (m + 1)) := by
    intro m
    show ((pre ++ ".") ++ natStr (m + 1)).data = _
    rw [String.data_append, String.data_append, List.append_assoc]
    rfl
  intro i j h
  match i, j with
  | 0, 0 => rfl
  | 0, k + 1 =>
      exfalso
      have hd := congrArg String.data h
      rw [hdata0, hdata k] at hd
      have hlen := congrArg List.length hd
      simp only [List.length_append] at hlen
      have hpos : 0 < (digitsOf (k + 1)).length :=
        List.length_pos.2 (digitsOf_ne_nil (k + 1))
      have hdot : (".".data).length = 1 := by decide
      omega
  | k + 1, 0 =>
      exfalso
      have hd := congrArg String.data h
      rw [hdata0, hdata k] at hd
      have hlen := congrArg List.length hd
      simp only [List.length_append] at hlen
      have hpos : 0 < (digitsOf (k + 1)).length :=
        List.length_pos.2 (digitsOf_ne_nil (k + 1))
      have hdot : (".".data).length = 1 := by decide
      omega
  | k + 1, l + 1 =>
      have hd := congrArg String.data h
      rw [hdata k, hdata l] at hd
      have h1 := List.append_cancel_left hd
      have h2 := List.append_cancel_left h1
      have := digitsOf_injective h2
      omega

/-- An existing path is among the keys. -/
theorem fsLookup_mem_keys (fs : FS) (p : String) :
    fsLookup fs p ≠ none → p ∈ fsKeys fs := by
  induction fs with
  | nil => intro h; exact absurd rfl h
  | cons hd tl ih =>
      obtain ⟨a, b⟩ := hd
      intro h
      by_cases hap : a = p
      · exact hap ▸ List.mem_cons_self a _
      · refine List.mem_cons_of_mem a (ih ?_)
        simpa [fsLookup, hap] using h
  
/-- Pigeonhole over the probe sequence: among the first `fs.length + 1`
pairwise-distinct candidates at least one is not a key of the finite file
system, so the probe loop's fuel always suffices. -/
theorem exists_free_candidate (fs : FS) (pre : String) :
    ∃ m, m ≤ fs.length ∧ fsLookup fs (bakCandidate pre m) = none := by
  by_contra hall
  push_neg at hall
  have hmem : ∀ m ∈ Finset.range (fs.length + 1),
      bakCandidate pre m ∈ fsKeys fs := by
    intro m hm
    exact fsLookup_mem_keys fs _ (hall m (by simpa using Nat.lt_succ_iff.1 (Finset.mem_range.1 hm)))
  have hsub : (Finset.range (fs.length + 1)).image (bakCandidate pre) ⊆
      (fsKeys fs).toFinset := by
    intro x hx
    obtain ⟨m, hm, rfl⟩ := Finset.mem_image.1 hx
    exact List.mem_toFinset.2 (hmem m hm)
  have hcard : ((Finset.range (fs.length + 1)).image (bakCandidate pre)).card =
      fs.length + 1 := by
    rw [Finset.card_image_of_injective _ (bakCandidate_injective pre), Finset.card_range]
  have h1 := Finset.card_le_card hsub
  have h2 := (fsKeys fs).toFinset_card_le
  have h3 : (fsKeys fs).length = fs.length := by simp [fsKeys]
  omega

/-- Correctness of the probe loop: if `j` is (relative to the start index
`k`) the first free offset and the fuel exceeds `j`, the loop returns
candidate `k + j`. -/
theorem probeBak_spec (fs : FS) (pre : String) :
    ∀ (j fuel k : Nat), j < fuel →
      fsLookup fs (bakCandidate pre (k + j)) = none →
      (∀ i < j, fsLookup fs (bakCandidate pre (k + i)) ≠ none) →
      probeBak fs pre fuel k = bakCandidate pre (k + j) := by
  intro j
  induction j with
  | zero =>
      intro fuel k hf hfree _
      match fuel, hf with
      | f + 1, _ =>
          simp only [probeBak, fsExists]
          rw [show k + 0 = k from rfl] at hfree
          simp [hfree]
  | succ n ih =>
      intro fuel k hf hfree hbusy
      match fuel, hf with
      | f + 1, hf =>
          have hbusy0 : fsLookup fs (bakCandidate pre k) ≠ none := by
            simpa using hbusy 0 (Nat.succ_pos n)
          have hex : fsExists fs (bakCandidate pre k) = true := by
            simp only [fsExists, Option.isSome]
            cases hcase : fsLookup fs (bakCandidate pre k) with
            | none => exact absurd hcase hbusy0
            | some _ => rfl
          simp only [probeBak, hex, if_true]
          have hshift : k + 1 + n = k + (n + 1) := by omega
          rw [ih f (k + 1) (by omega) (by rw [hshift]; exact hfree)
            (fun i hi => by
              have := hbusy (i + 1) (Nat.succ_lt_succ hi)
              rwa [show k + 1 + i = k + (i + 1) from by omega])]
          rw [hshift]

/-- C7: `backup_file` copies the file's bytes to the first free name in the
probe sequence (under `backupDir`: `basename.bak`, then `basename.bak.1`,
`basename.bak.2`, …): there is an index `m` such that every earlier
candidate already exists, candidate `m` does not previously exist
(collision-free), the file's content is copied to it, and
`manifest[path] = backupPath` is recorded. -/
theorem backup_file_first_free
    (fs : FS) (path backup_dir content : String)
    (manifest : List (String × String))
    (hpath : fsLookup fs path = some content) :
    ∃ m,
      fsLookup fs (bakCandidate (backup_dir ++ "/" ++ basename path ++ ".bak") m)
          = none ∧
      (∀ j < m,
        fsLookup fs (bakCandidate (backup_dir ++ "/" ++ basename path ++ ".bak") j)
          ≠ none) ∧
      backup_file fs path backup_dir manifest =
        (fsSet fs (bakCandidate (backup_dir ++ "/" ++ basename path ++ ".bak") m)
           content,
         fsSet manifest path
           (bakCandidate (backup_dir ++ "/" ++ basename path ++ ".bak") m)) := by
  set pre := backup_dir ++ "/" ++ basename path ++ ".bak" with hpre
  obtain ⟨m0, hm0le, hm0free⟩ := exists_free_candidate fs pre
  have hex : ∃ m, fsLookup fs (bakCandidate pre m) = none := ⟨m0, hm0free⟩
  refine ⟨Nat.find hex, Nat.find_spec hex, fun j hj => Nat.find_min hex hj, ?_⟩
  have hfind_le : Nat.find hex ≤ m0 := Nat.find_min' hex hm0free
  have hprobe : probeBak fs pre (fs.length + 1) 0 = bakCandidate pre (Nat.find hex) := by
    have := probeBak_spec fs pre (Nat.find hex) (fs.length + 1) 0
      (by omega) (by simpa using Nat.find_spec hex)
      (fun i hi => by simpa using Nat.find_min hex hi)
    simpa using this
  simp only [backup_file, ← hpre, hprobe, hpath]

/-- Witness for C7 at a concrete input: `a.py` holding `C`, with
`bk/a.py.bak` already occupied, so the chosen backup name is
`bk/a.py.bak.1`. -/
theorem backup_file_first_free_witness :
    ∃ m,
      fsLookup [("a.py", "C"), ("bk/a.py.bak", "Z")]
          (bakCandidate ("bk" ++ "/" ++ basename "a.py" ++ ".bak") m) = none ∧
      (∀ j < m,
        fsLookup [("a.py", "C"), ("bk/a.py.bak", "Z")]
          (bakCandidate ("bk" ++ "/" ++ basename "a.py" ++ ".bak") j) ≠ none) ∧
      backup_file [("a.py", "C"), ("bk/a.py.bak", "Z")] "a.py" "bk" [] =
        (fsSet [("a.py", "C"), ("bk/a.py.bak", "Z")]
           (bakCandidate ("bk" ++ "/" ++ basename "a.py" ++ ".bak") m) "C",
         fsSet [] "a.py"
           (bakCandidate ("bk" ++ "/" ++ basename "a.py" ++ ".bak") m)) :=
  backup_file_first_free [("a.py", "C"), ("bk/a.py.bak", "Z")] "a.py" "bk" "C" []
    (by decide)

-- Claim C9: emptiness of the unified diff.

/-- Flattening the split lines recovers the text (with the pending
accumulator prepended). -/
theorem flatten_splitlinesAux : ∀ (cs acc : List Char),
    (splitlinesAux cs acc).flatten = acc.reverse ++ cs
  | [], acc => by
      by_cases h : acc = [] <;> simp [splitlinesAux, h]
  | c :: rest, acc => by
      by_cases h : c = '\n'
      · subst h
        simp [splitlinesAux, flatten_splitlinesAux rest []]
      · simp [splitlinesAux, h, flatten_splitlinesAux rest (c :: acc)]

/-- Joining the kept-ends lines recovers the original text: `splitlines`
loses nothing. -/
theorem flatten_splitlines (s : String) : (splitlines s).flatten = s.data := by
  simpa using flatten_splitlinesAux s.data []

/-- Two texts with the same kept-ends lines are equal. -/
theorem splitlines_injective : Function.Injective splitlines := by
  intro a b h
  apply String.ext
  rw [← flatten_splitlines a, ← flatten_splitlines b, h]

/-- The common prefix of a sequence with itself is everything. -/
theorem cpl_self : ∀ a : List (List Char), cpl a a = a.length
  | [] => rfl
  | x :: xs => by simp [cpl, cpl_self xs]

/-- The common prefix is no longer than the left sequence. -/
theorem cpl_le_left : ∀ a b : List (List Char), cpl a b ≤ a.length
  | [], _ => by simp [cpl]
  | _ :: _, [] => by simp [cpl]
  | x :: xs, y :: ys => by
      by_cases h : x = y
      · have := cpl_le_left xs ys
        simp [cpl, h]
        omega
      · simp [cpl, h]

/-- The common prefix is no longer than the right sequence. -/
theorem cpl_le_right : ∀ a b : List (List Char), cpl a b ≤ b.length
  | [], _ => by simp [cpl]
  | _ :: _, [] => by simp [cpl]
  | x :: xs, y :: ys => by
      by_cases h : x = y
      · have := cpl_le_right xs ys
        simp [cpl, h]
        omega
      · simp [cpl, h]

/-- Both sequences agree on their common prefix. -/
theorem cpl_take : ∀ a b : List (List Char), a.take (cpl a b) = b.take (cpl a b)
  | [], b => by simp [cpl]
  | _ :: _, [] => by simp [cpl]
  | x :: xs, y :: ys => by
      by_cases h : x = y
      · subst h
        simp [cpl, cpl_take xs ys]
      · simp [cpl, h]

/-- A common prefix exhausting both sequences makes them equal. -/
theorem cpl_full : ∀ a b : List (List Char),
    cpl a b = a.length → cpl a b = b.length → a = b
  | [], [], _, _ => rfl
  | [], _ :: _, _, h2 => by simp [cpl] at h2
  | _ :: _, [], h1, _ => by simp [cpl] at h1
  | x :: xs, y :: ys, h1, h2 => by
      by_cases h : x = y
      · subst h
        simp [cpl] at h1 h2
        rw [cpl_full xs ys (by omega) (by omega)]
      · simp [cpl, h] at h1

/-- The middles left over after removing the common prefix and the common
suffix are both empty exactly when the two line sequences are equal. -/
theorem take_drop_mid_nil_iff (a b : List (List Char)) :
    ((a.drop (cpl a b)).take
        ((a.drop (cpl a b)).length -
          cpl (a.drop (cpl a b)).reverse (b.drop (cpl a b)).reverse) = [] ∧
     (b.drop (cpl a b)).take
        ((b.drop (cpl a b)).length -
          cpl (a.drop (cpl a b)).reverse (b.drop (cpl a b)).reverse) = []) ↔
    a = b := by
  constructor
  · rintro ⟨ha, hb⟩
    have hsa : cpl (a.drop (cpl a b)).reverse (b.drop (cpl a b)).reverse ≤
        (a.drop (cpl a b)).length := by
      have := cpl_le_left (a.drop (cpl a b)).reverse (b.drop (cpl a b)).reverse
      simpa using this
    have hsb : cpl (a.drop (cpl a b)).reverse (b.drop (cpl a b)).reverse ≤
        (b.drop (cpl a b)).length := by
      have := cpl_le_right (a.drop (cpl a b)).reverse (b.drop (cpl a b)).reverse
      simpa using this
    have ha' := congrArg List.length ha
    have hb' := congrArg List.length hb
    simp only [List.length_take, List.length_nil] at ha' hb'
    have haLen : (a.drop (cpl a b)).length =
        cpl (a.drop (cpl a b)).reverse (b.drop (cpl a b)).reverse := by omega
    have hbLen : (b.drop (cpl a b)).length =
        cpl (a.drop (cpl a b)).reverse (b.drop (cpl a b)).reverse := by omega
    have hrev : (a.drop (cpl a b)).reverse = (b.drop (cpl a b)).reverse := by
      refine cpl_full _ _ ?_ ?_
      · simpa using haLen.symm
      · simpa using hbLen.symm
    have hdrop : a.drop (cpl a b) = b.drop (cpl a b) :=
      List.reverse_injective hrev
    calc a = a.take (cpl a b) ++ a.drop (cpl a b) :=
          (List.take_append_drop (cpl a b) a).symm
      _ = b.take (cpl a b) ++ b.drop (cpl a b) := by rw [cpl_take a b, hdrop]
      _ = b := List.take_append_drop (cpl a b) b
  · rintro rfl
    simp [cpl_self, List.drop_length]

/-- The modeled `unified_diff` emits nothing exactly when the two line
sequences are equal. -/
theorem unified_diff_nil_iff (a b : List (List Char)) (ff tf : String) :
    unified_diff a b ff tf = [] ↔ a = b := by
  rw [← take_drop_mid_nil_iff a b]
  simp only [unified_diff]
  split_ifs with h
  · simpa using h
  · simpa using h

/-- When the diff is non-empty its first line is the `---` header. -/
theorem unified_diff_head (a b : List (List Char)) (ff tf : String) :
    unified_diff a b ff tf = [] ∨
    ∃ tl, unified_diff a b ff tf = ("--- ".data ++ ff.data) :: tl := by
  simp only [unified_diff]
  split_ifs
  · exact Or.inl rfl
  · exact Or.inr ⟨_, rfl⟩

/-- C9: `generate_diff` returns the empty string if and only if the
original and modified text blobs are character-for-character equal; for
unequal blobs the emitted diff is non-empty (it starts with the `---`
header line). -/
theorem generate_diff_empty_iff (original modified path : String) :
    generate_diff original modified path = "" ↔ original = modified := by
  constructor
  · intro h
    have hdata : (unified_diff (splitlines original) (splitlines modified)
        ("a/" ++ path) ("b/" ++ path)).flatten = ("" : String).data :=
      congrArg String.data h
    have hnil : unified_diff (splitlines original) (splitlines modified)
        ("a/" ++ path) ("b/" ++ path) = [] := by
      rcases unified_diff_head (splitlines original) (splitlines modified)
          ("a/" ++ path) ("b/" ++ path) with hcase | ⟨tl, hcase⟩
      · exact hcase
      · exfalso
        rw [hcase] at hdata
        have := congrArg List.length hdata
        simp [List.length_append] at this
    exact splitlines_injective ((unified_diff_nil_iff _ _ _ _).1 hnil)
  · rintro rfl
    have hnil : unified_diff (splitlines original) (splitlines original)
        ("a/" ++ path) ("b/" ++ path) = [] :=
      (unified_diff_nil_iff _ _ _ _).2 rfl
    unfold generate_diff
    rw [hnil]
    rfl
